import Mathlib

/-!
Verification of the pending-transmission tracker
(`node/narwhal/src/helpers/pending.rs`).

The tracker `Pending<T>` holds two tables:
 * `pending : HashMap<T, HashSet<SocketAddr>>` — item to peer addresses;
 * `callbacks : HashMap<T, Vec<oneshot::Sender<()>>>` — item to the ordered
   list of one-shot completion signals registered for it.

We embed the two hash maps as association lists with unique keys
(a `HashMap` has exactly one value per key; lookup/update/erase below are the
corresponding association-list operations), a `HashSet<SocketAddr>` as a
duplicate-free list of an opaque address type `A`, and a `oneshot::Sender<()>`
as an abstract signal identifier (`Nat`).  `remove` returns, besides the new
state and its boolean result, the list of signals it fires (the `Vec` drained
from the callback table, sent in order), so that signal behaviour is
observable in the embedding.
-/

namespace PendingTracker

variable {T A V : Type}

/-- Association-list embedding of `HashMap::get`. -/
def mapGet [DecidableEq T] : List (T × V) → T → Option V
  | [], _ => none
  | kv :: rest, key => if kv.1 = key then some kv.2 else mapGet rest key

/-- Association-list embedding of `HashMap::entry(key)` followed by an
in-place update of the value: `f` receives the existing value (if any) and
yields the new one.  Used for `entry(item).or_default().insert(peer_ip)` and
`entry(item).or_default().push(callback)`. -/
def mapUpdate [DecidableEq T] (f : Option V → V) : List (T × V) → T → List (T × V)
  | [], key => [(key, f none)]
  | kv :: rest, key =>
      if kv.1 = key then (kv.1, f (some kv.2)) :: rest
      else kv :: mapUpdate f rest key

/-- Association-list embedding of `HashMap::remove(key)` (the key is dropped;
on the unique-key lists our operations build, this is exactly one deletion). -/
def mapErase [DecidableEq T] (m : List (T × V)) (key : T) : List (T × V) :=
  m.filter (fun kv => decide (kv.1 ≠ key))

/-- Embedding of `HashSet::insert`: adds the element if absent, no-op if
present (set semantics, no duplication). -/
def setInsert [DecidableEq A] (s : List A) (a : A) : List A :=
  if a ∈ s then s else s ++ [a]

/-- The two tables of `Pending<T>`: the pending map (item to peer set) and
the callback map (item to the ordered signal list). -/
structure PendingState (T A : Type) where
  pending : List (T × List A)
  callbacks : List (T × List Nat)
  deriving DecidableEq

namespace Pending

variable [DecidableEq T] [DecidableEq A]

/-- `Pending::new()`: empty pending map, empty callback map. -/
def new : PendingState T A := ⟨[], []⟩

/-- `Pending::is_empty()`: whether the pending map is empty. -/
def is_empty (s : PendingState T A) : Bool :=
  s.pending.isEmpty

/-- `Pending::len()`: the number of keys of the pending map. -/
def len (s : PendingState T A) : Nat :=
  s.pending.length

/-- `Pending::contains(item)`: key membership in the pending map. -/
def contains (s : PendingState T A) (item : T) : Bool :=
  (mapGet s.pending item).isSome

/-- `Pending::contains_peer(item, peer_ip)`:
`get(&item).map_or(false, |peer_ips| peer_ips.contains(&peer_ip))`. -/
def contains_peer (s : PendingState T A) (item : T) (peer : A) : Bool :=
  match mapGet s.pending item with
  | none => false
  | some peer_ips => decide (peer ∈ peer_ips)

/-- `Pending::get(item)`: the peer set for `item`, if any. -/
def get (s : PendingState T A) (item : T) : Option (List A) :=
  mapGet s.pending item

/-- `Pending::insert(item, peer_ip, callback)`:
`self.pending.write().entry(item).or_default().insert(peer_ip)`, then, if a
callback is supplied, `self.callbacks.lock().entry(item).or_default().push(callback)`. -/
def insert (s : PendingState T A) (item : T) (peer : A)
    (callback : Option Nat) : PendingState T A :=
  { pending := mapUpdate (fun ov => setInsert (ov.getD []) peer) s.pending item
    callbacks :=
      match callback with
      | some cb => mapUpdate (fun ov => ov.getD [] ++ [cb]) s.callbacks item
      | none => s.callbacks }

/-- The observable outcome of `Pending::remove`: the new state, the returned
boolean, and the completion signals sent (in order). -/
structure RemoveResult (T A : Type) where
  state : PendingState T A
  result : Bool
  fired : List Nat

/-- `Pending::remove(item)`:
`result = self.pending.write().remove(&item).is_some()`; then the callback
list for `item` is removed from the callback map and each of its signals is
sent, in order; `result` is returned. -/
def remove (s : PendingState T A) (item : T) : RemoveResult T A :=
  { state :=
      { pending := mapErase s.pending item
        callbacks := mapErase s.callbacks item }
    result := (mapGet s.pending item).isSome
    fired := (mapGet s.callbacks item).getD [] }

end Pending

/-- A call into the tracker: `insert(item, peer, callback)` or `remove(item)`. -/
inductive Op (T A : Type) where
  | insertOp (item : T) (peer : A) (callback : Option Nat)
  | removeOp (item : T)

variable [DecidableEq T] [DecidableEq A]

/-- One call, together with the signals it fires: `insert` fires none,
`remove` fires the drained callback list. -/
def stepFired (s : PendingState T A) : Op T A → PendingState T A × List Nat
  | .insertOp item peer cb => (Pending.insert s item peer cb, [])
  | .removeOp item => ((Pending.remove s item).state, (Pending.remove s item).fired)

/-- The state after one call. -/
def applyOp (s : PendingState T A) (op : Op T A) : PendingState T A :=
  (stepFired s op).1

/-- The state after a sequence of calls starting from `Pending::new()`. -/
def runState (ops : List (Op T A)) : PendingState T A :=
  ops.foldl applyOp Pending.new

/-- The `oneshot` receiving side of a signal is modelled by a liveness
predicate: `callback.send(())` succeeds iff the receiver is still live. -/
def trySend (live : Nat → Bool) (sig : Nat) : Except Unit Unit :=
  if live sig then .ok () else .error ()

/-- The delivery loop of `Pending::remove`: each signal is sent in order and
the outcome is discarded (`callback.send(()).ok()`); the loop continues past
failed sends.  Returns the signals actually delivered to a live receiver. -/
def processCallbacks (live : Nat → Bool) : List Nat → List Nat
  | [] => []
  | c :: rest =>
      match trySend live c with
      | .ok _ => c :: processCallbacks live rest
      | .error _ => processCallbacks live rest

/-! ### Basic lemmas about the map embedding -/

theorem mapGet_mapUpdate_self (f : Option V → V)
    (m : List (T × V)) (k : T) :
    mapGet (mapUpdate f m k) k = some (f (mapGet m k)) := by
  induction m with
  | nil => simp [mapGet, mapUpdate]
  | cons kv rest ih =>
      by_cases h : kv.1 = k
      · simp [mapGet, mapUpdate, h]
      · simp [mapGet, mapUpdate, h, ih]

theorem mapGet_mapUpdate_ne (f : Option V → V)
    (m : List (T × V)) (k k' : T) (h : k' ≠ k) :
    mapGet (mapUpdate f m k) k' = mapGet m k' := by
  have hne : ¬ k = k' := fun hk => h hk.symm
  induction m with
  | nil => simp [mapGet, mapUpdate, hne]
  | cons kv rest ih =>
      by_cases hk : kv.1 = k
      · have hkv : ¬ kv.1 = k' := fun hkk => h (hkk.symm.trans hk)
        simp [mapGet, mapUpdate, hk, hkv, hne]
      · by_cases hk' : kv.1 = k'
        · simp [mapGet, mapUpdate, hk, hk', h]
        · simp [mapGet, mapUpdate, hk, hk', ih]

theorem mapGet_mapErase_self (m : List (T × V)) (k : T) :
    mapGet (mapErase m k) k = none := by
  induction m with
  | nil => simp [mapGet, mapErase]
  | cons kv rest ih =>
      by_cases h : kv.1 = k
      · simpa [mapErase, h] using ih
      · simpa [mapErase, mapGet, h] using ih

theorem mapGet_mapErase_ne (m : List (T × V)) (k k' : T)
    (h : k' ≠ k) :
    mapGet (mapErase m k) k' = mapGet m k' := by
  have hne : ¬ k = k' := fun hk => h hk.symm
  induction m with
  | nil => simp [mapGet, mapErase]
  | cons kv rest ih =>
      by_cases hk : kv.1 = k
      · have hkv : ¬ kv.1 = k' := fun hkk => h (hkk.symm.trans hk)
        simpa [mapErase, mapGet, hk, hkv, hne] using ih
      · by_cases hk' : kv.1 = k'
        · simp [mapErase, mapGet, hk, hk', h]
        · simpa [mapErase, mapGet, hk, hk'] using ih

theorem setInsert_ne_nil (s : List A) (a : A) :
    setInsert s a ≠ [] := by
  unfold setInsert
  by_cases h : a ∈ s
  · simp only [if_pos h]
    intro hnil
    exact (List.not_mem_nil a) (hnil ▸ h)
  · simp [if_neg h]

theorem subset_setInsert (s : List A) (a : A) :
    s ⊆ setInsert s a := by
  unfold setInsert
  by_cases h : a ∈ s
  · simp [h]
  · simp only [if_neg h]
    exact List.subset_append_left s [a]

theorem mem_setInsert_self (s : List A) (a : A) :
    a ∈ setInsert s a := by
  unfold setInsert
  by_cases h : a ∈ s
  · simp [h]
  · simp [h]

theorem setInsert_mem (s : List A) (a : A) (h : a ∈ s) :
    setInsert s a = s := by
  simp [setInsert, h]

theorem processCallbacks_eq_filter (live : Nat → Bool) (l : List Nat) :
    processCallbacks live l = l.filter live := by
  induction l with
  | nil => rfl
  | cons c rest ih =>
      by_cases h : live c = true
      · simp [processCallbacks, trySend, h, ih]
      · simp [processCallbacks, trySend, h, ih]


theorem setInsert_setInsert (s : List A) (a : A) :
    setInsert (setInsert s a) a = setInsert s a :=
  setInsert_mem _ _ (mem_setInsert_self s a)

theorem mapUpdate_insert_idem (m : List (T × List A)) (k : T) (a : A) :
    mapUpdate (fun ov => setInsert (ov.getD []) a)
      (mapUpdate (fun ov => setInsert (ov.getD []) a) m k) k
    = mapUpdate (fun ov => setInsert (ov.getD []) a) m k := by
  induction m with
  | nil => simp [mapUpdate, setInsert_setInsert]
  | cons kv rest ih =>
      by_cases hk : kv.1 = k
      · simp [mapUpdate, hk, setInsert_setInsert]
      · simp [mapUpdate, hk, ih]

/-! ### Reachability invariants -/

/-- One step preserves "every pending key maps to a non-empty peer set". -/
theorem nonempty_invariant_step (s : PendingState T A) (op : Op T A)
    (hs : ∀ X ps, mapGet s.pending X = some ps → ps ≠ []) :
    ∀ X ps, mapGet (applyOp s op).pending X = some ps → ps ≠ [] := by
  intro X ps hps
  cases op with
  | insertOp item peer cb =>
      simp only [applyOp, stepFired, Pending.insert] at hps
      by_cases hX : X = item
      · subst hX
        rw [mapGet_mapUpdate_self] at hps
        cases hps
        exact setInsert_ne_nil _ _
      · rw [mapGet_mapUpdate_ne _ _ _ _ hX] at hps
        exact hs X ps hps
  | removeOp item =>
      simp only [applyOp, stepFired, Pending.remove] at hps
      by_cases hX : X = item
      · subst hX
        rw [mapGet_mapErase_self] at hps
        cases hps
      · rw [mapGet_mapErase_ne _ _ _ hX] at hps
        exact hs X ps hps

/-- Any run preserves "every pending key maps to a non-empty peer set". -/
theorem nonempty_invariant_run (ops : List (Op T A)) (s : PendingState T A)
    (hs : ∀ X ps, mapGet s.pending X = some ps → ps ≠ []) :
    ∀ X ps, mapGet (ops.foldl applyOp s).pending X = some ps → ps ≠ [] := by
  induction ops generalizing s with
  | nil => exact hs
  | cons op rest ih => exact ih _ (nonempty_invariant_step s op hs)

/-- One step preserves "every callback key is a pending key". -/
theorem waiter_key_step (s : PendingState T A) (op : Op T A)
    (hs : ∀ X, (mapGet s.callbacks X).isSome = true →
      (mapGet s.pending X).isSome = true) :
    ∀ X, (mapGet (applyOp s op).callbacks X).isSome = true →
      (mapGet (applyOp s op).pending X).isSome = true := by
  intro X hcb
  cases op with
  | insertOp item peer cb =>
      simp only [applyOp, stepFired, Pending.insert] at hcb ⊢
      by_cases hX : X = item
      · subst hX
        rw [mapGet_mapUpdate_self]
        rfl
      · rw [mapGet_mapUpdate_ne _ _ _ _ hX]
        apply hs
        cases cb with
        | none => exact hcb
        | some c =>
            rw [mapGet_mapUpdate_ne _ _ _ _ hX] at hcb
            exact hcb
  | removeOp item =>
      simp only [applyOp, stepFired, Pending.remove] at hcb ⊢
      by_cases hX : X = item
      · rw [hX, mapGet_mapErase_self] at hcb
        cases hcb
      · rw [mapGet_mapErase_ne _ _ _ hX] at hcb ⊢
        exact hs X hcb

/-- Any run preserves "every callback key is a pending key". -/
theorem waiter_key_run (ops : List (Op T A)) (s : PendingState T A)
    (hs : ∀ X, (mapGet s.callbacks X).isSome = true →
      (mapGet s.pending X).isSome = true) :
    ∀ X, (mapGet (ops.foldl applyOp s).callbacks X).isSome = true →
      (mapGet (ops.foldl applyOp s).pending X).isSome = true := by
  induction ops generalizing s with
  | nil => exact hs
  | cons op rest ih => exact ih _ (waiter_key_step s op hs)


/-! ### Claim theorems -/

omit [DecidableEq A] in
/-- Claim C2: `remove(X)` returns `true` iff a Pending Entry for `X` existed
at the time of the call; after `remove(X)`, `contains(X) = false` and
`get(X) = none`; a second `remove(X)` (with no intervening insert) returns
`false`; and `remove(X)` on a tracker in which `X` was never inserted (the
fresh tracker) returns `false`. -/
theorem C2_remove_clears_and_reports (s : PendingState T A) (X : T) :
    ((Pending.remove s X).result = true ↔ Pending.contains s X = true) ∧
    Pending.contains (Pending.remove s X).state X = false ∧
    Pending.get (Pending.remove s X).state X = none ∧
    (Pending.remove (Pending.remove s X).state X).result = false ∧
    (Pending.remove (Pending.new (T := T) (A := A)) X).result = false := by
  refine ⟨Iff.rfl, ?_, ?_, ?_, ?_⟩
  · simp [Pending.contains, Pending.remove, mapGet_mapErase_self]
  · simp [Pending.get, Pending.remove, mapGet_mapErase_self]
  · simp [Pending.remove, mapGet_mapErase_self]
  · simp [Pending.remove, Pending.new, mapGet]

/-- Claim C3: for any identifier `X` and peer `P`, after `insert(X, P, None)`
on a fresh tracker (so `X`, `P` were not previously inserted):
`contains(X) = true`, `contains_peer(X, P) = true`, `get(X) = Some({P})` and
`len() = 1`. -/
theorem C3_insert_then_query (X : T) (P : A) :
    Pending.contains (Pending.insert (Pending.new (T := T) (A := A)) X P none) X = true ∧
    Pending.contains_peer (Pending.insert (Pending.new (T := T) (A := A)) X P none) X P = true ∧
    Pending.get (Pending.insert (Pending.new (T := T) (A := A)) X P none) X = some [P] ∧
    Pending.len (Pending.insert (Pending.new (T := T) (A := A)) X P none) = 1 := by
  refine ⟨?_, ?_, ?_, ?_⟩ <;>
    simp [Pending.insert, Pending.new, Pending.contains, Pending.contains_peer,
      Pending.get, Pending.len, mapUpdate, mapGet, setInsert]

/-- Claim C6: inserting the same `(X, P)` pair twice (with no callbacks)
leaves exactly the same tracker state as inserting it once (idempotence on
the peer set), and from a fresh tracker the resulting peer set is `{P}` with
no duplication. -/
theorem C6_idempotent_peer_insert (s : PendingState T A) (X : T) (P : A) :
    Pending.insert (Pending.insert s X P none) X P none = Pending.insert s X P none ∧
    Pending.get (Pending.insert (Pending.insert (Pending.new (T := T) (A := A)) X P none) X P none) X
      = some [P] := by
  constructor
  · simp [Pending.insert, mapUpdate_insert_idem]
  · simp [Pending.insert, Pending.new, Pending.get, mapUpdate, mapGet, setInsert]

/-- Claim C9: in every state the read accessors are mutually consistent:
`contains(X)` holds exactly when `get(X)` is `Some`; `contains_peer(X, P)`
holds exactly when `get(X)` is a `Some` set containing `P` (in particular it
is `false` when `X` is absent); and `is_empty()` holds exactly when
`len() = 0`. -/
theorem C9_accessor_consistency (s : PendingState T A) (X : T) (P : A) :
    (Pending.contains s X = true ↔ ∃ ps, Pending.get s X = some ps) ∧
    (Pending.contains_peer s X P = true ↔ ∃ ps, Pending.get s X = some ps ∧ P ∈ ps) ∧
    (Pending.get s X = none → Pending.contains_peer s X P = false) ∧
    (Pending.is_empty s = true ↔ Pending.len s = 0) := by
  refine ⟨?_, ?_, ?_, ?_⟩
  · cases h : mapGet s.pending X <;>
      simp [Pending.contains, Pending.get, h]
  · cases h : mapGet s.pending X <;>
      simp [Pending.contains_peer, Pending.get, h]
  · intro h
    simp only [Pending.get] at h
    simp [Pending.contains_peer, h]
  · cases hp : s.pending <;> simp [Pending.is_empty, Pending.len, hp]

/-- Claim C8: operations on identifier `X` never affect the pending entry or
the waiter entry of a distinct identifier `Y`: both `insert(X, P, cb)` and
`remove(X)` leave `Y`'s entry in the pending map and in the callback map
exactly as they were. -/
theorem C8_independence_across_identifiers (s : PendingState T A) (X Y : T)
    (P : A) (cb : Option Nat) (h : X ≠ Y) :
    mapGet (Pending.insert s X P cb).pending Y = mapGet s.pending Y ∧
    mapGet (Pending.insert s X P cb).callbacks Y = mapGet s.callbacks Y ∧
    mapGet (Pending.remove s X).state.pending Y = mapGet s.pending Y ∧
    mapGet (Pending.remove s X).state.callbacks Y = mapGet s.callbacks Y := by
  have hY : Y ≠ X := h.symm
  refine ⟨?_, ?_, ?_, ?_⟩
  · simp [Pending.insert, mapGet_mapUpdate_ne _ _ _ _ hY]
  · cases cb with
    | none => rfl
    | some c => simp [Pending.insert, mapGet_mapUpdate_ne _ _ _ _ hY]
  · simp [Pending.remove, mapGet_mapErase_ne _ _ _ hY]
  · simp [Pending.remove, mapGet_mapErase_ne _ _ _ hY]

/-- Witness for C8 at a concrete input. -/
theorem C8_independence_across_identifiers_witness :
    (0 : Nat) ≠ 1 ∧
    mapGet (Pending.insert (Pending.new (T := Nat) (A := Nat)) 0 5 (some 3)).pending 1
      = mapGet (Pending.new (T := Nat) (A := Nat)).pending 1 :=
  ⟨by decide,
    (C8_independence_across_identifiers (Pending.new (T := Nat) (A := Nat))
      0 1 5 (some 3) (by decide)).1⟩


omit [DecidableEq A] in
/-- Claim C7: if some registered waiters for `X` have had their receiving
side discarded (are no longer live) before `remove(X)`, then `remove(X)` on a
pending `X` still returns `true`, the delivery loop is total (a failed send
is discarded and the loop continues), every still-live waiter for `X` is
delivered to, and the deliveries to live waiters are exactly the live
signals of the fired list, in order — dead receivers do not affect them. -/
theorem C7_abandoned_waiter_safety (s : PendingState T A) (X : T)
    (live : Nat → Bool) (h : Pending.contains s X = true) :
    (Pending.remove s X).result = true ∧
    processCallbacks live (Pending.remove s X).fired
      = ((Pending.remove s X).fired).filter live ∧
    (∀ c ∈ (Pending.remove s X).fired, live c = true →
      c ∈ processCallbacks live (Pending.remove s X).fired) := by
  refine ⟨h, processCallbacks_eq_filter _ _, ?_⟩
  intro c hc hl
  rw [processCallbacks_eq_filter]
  exact List.mem_filter.mpr ⟨hc, hl⟩

/-- Witness for C7 at a concrete input: two waiters registered for item `0`,
waiter `5` abandoned (not live), waiter `6` live; `remove` still reports
`true` and `6` is delivered to. -/
theorem C7_abandoned_waiter_safety_witness :
    Pending.contains
        (Pending.insert (Pending.insert (Pending.new (T := Nat) (A := Nat))
          0 1 (some 5)) 0 2 (some 6)) 0 = true ∧
    (Pending.remove
        (Pending.insert (Pending.insert (Pending.new (T := Nat) (A := Nat))
          0 1 (some 5)) 0 2 (some 6)) 0).result = true ∧
    processCallbacks (fun n => n == 6)
        (Pending.remove
          (Pending.insert (Pending.insert (Pending.new (T := Nat) (A := Nat))
            0 1 (some 5)) 0 2 (some 6)) 0).fired = [6] :=
  ⟨by decide,
    (C7_abandoned_waiter_safety _ 0 (fun n => n == 6) (by decide)).1,
    by decide⟩

/-- Claim C1: `insert` never fires a completion signal (so nothing fires
before `remove(X)`, and `remove` is the only firing operation), and if
signals `S1`, `S2`, `S3` are registered by three `insert` calls on `X` (with
any peers) starting from a state with no waiter entry for `X`, then the
single call `remove(X)` fires exactly `[S1, S2, S3]`: each exactly once, in
registration order. -/
theorem C1_waiter_fanout (s : PendingState T A) (X : T) (p1 p2 p3 : A)
    (S1 S2 S3 : Nat) (h : mapGet s.callbacks X = none) :
    (∀ (s' : PendingState T A) (item : T) (peer : A) (cb : Option Nat),
        (stepFired s' (Op.insertOp item peer cb)).2 = []) ∧
    (Pending.remove
        (Pending.insert (Pending.insert (Pending.insert s X p1 (some S1))
          X p2 (some S2)) X p3 (some S3)) X).fired = [S1, S2, S3] := by
  constructor
  · intro s' item peer cb
    rfl
  · simp [Pending.insert, Pending.remove, mapGet_mapUpdate_self, h]

/-- Witness for C1 at a concrete input: three waiters `10`, `20`, `30`
registered for item `0` on a fresh tracker; `remove(0)` fires
`[10, 20, 30]`. -/
theorem C1_waiter_fanout_witness :
    mapGet (Pending.new (T := Nat) (A := Nat)).callbacks 0 = none ∧
    (Pending.remove
        (Pending.insert (Pending.insert (Pending.insert
          (Pending.new (T := Nat) (A := Nat)) 0 1 (some 10))
          0 2 (some 20)) 0 3 (some 30)) 0).fired = [10, 20, 30] :=
  ⟨rfl, (C1_waiter_fanout (Pending.new (T := Nat) (A := Nat))
    0 1 2 3 10 20 30 rfl).2⟩

/-- Claim C5: in every state reachable from `new()` by `insert`/`remove`
calls, every key of the pending map carries a non-empty peer set; and a
single `insert` or `remove` call never shrinks the peer set of a key that
stays present (the set only grows between its creation and the `remove` that
deletes the key). -/
theorem C5_nonempty_and_monotone_peer_sets :
    (∀ (ops : List (Op T A)) (X : T) (ps : List A),
        mapGet (runState ops).pending X = some ps → ps ≠ []) ∧
    (∀ (s : PendingState T A) (op : Op T A) (X : T) (ps ps' : List A),
        mapGet s.pending X = some ps →
        mapGet (applyOp s op).pending X = some ps' → ps ⊆ ps') := by
  constructor
  · intro ops X ps
    exact nonempty_invariant_run ops Pending.new (by simp [Pending.new, mapGet]) X ps
  · intro s op X ps ps' hps hps'
    cases op with
    | insertOp item peer cb =>
        simp only [applyOp, stepFired, Pending.insert] at hps'
        by_cases hX : X = item
        · subst hX
          rw [mapGet_mapUpdate_self, hps] at hps'
          cases hps'
          exact subset_setInsert ps peer
        · rw [mapGet_mapUpdate_ne _ _ _ _ hX, hps] at hps'
          cases hps'
          exact List.Subset.refl ps
    | removeOp item =>
        simp only [applyOp, stepFired, Pending.remove] at hps'
        by_cases hX : X = item
        · subst hX
          rw [mapGet_mapErase_self] at hps'
          cases hps'
        · rw [mapGet_mapErase_ne _ _ _ hX, hps] at hps'
          cases hps'
          exact List.Subset.refl ps

/-- Witness for C5 at concrete inputs: after inserting peer `1` for item `0`
the peer set `[1]` is non-empty, and a further insert of peer `2` only grows
it (`[1] ⊆ [1, 2]`). -/
theorem C5_nonempty_and_monotone_peer_sets_witness :
    mapGet (runState [Op.insertOp (0 : Nat) (1 : Nat) none]).pending 0 = some [1] ∧
    (([1] : List Nat) ≠ [] ∧ ([1] : List Nat) ⊆ [1, 2]) :=
  ⟨rfl,
    (C5_nonempty_and_monotone_peer_sets (T := Nat) (A := Nat)).1
      [Op.insertOp 0 1 none] 0 [1] rfl,
    (C5_nonempty_and_monotone_peer_sets (T := Nat) (A := Nat)).2
      (runState [Op.insertOp 0 1 none]) (Op.insertOp 0 2 none) 0 [1] [1, 2]
      rfl rfl⟩

/-- Counterexample to claim C4 as stated: no sequence of `insert`/`remove`
calls from `new()` reaches a state in which the Waiter Table has an entry
for an identifier while the Pending Table has none — `insert` is the only
operation that can register a waiter, and it always records the peer in the
pending map for the same identifier first, while `remove` deletes both
entries together. -/
theorem C4_counterexample :
    ¬ ∃ (ops : List (Op Nat Nat)) (X : Nat),
        (mapGet (runState ops).callbacks X).isSome = true ∧
        (mapGet (runState ops).pending X).isSome = false := by
  rintro ⟨ops, X, hcb, hp⟩
  have hkey := waiter_key_run ops Pending.new
    (by intro Y h; simp [Pending.new, mapGet] at h) X hcb
  rw [runState] at hp
  rw [hp] at hkey
  cases hkey

/-- Claim C4 (amended): a waiter can never be registered for an identifier
without a Pending Entry: in every state reachable from `new()` by
`insert`/`remove` calls, every identifier with a Waiter Table entry also has
a Pending Entry (registering a waiter requires an `insert`, which always
records a peer for the same identifier). -/
theorem C4_amended_waiter_implies_pending (ops : List (Op T A)) (X : T)
    (h : (mapGet (runState ops).callbacks X).isSome = true) :
    (mapGet (runState ops).pending X).isSome = true :=
  waiter_key_run ops Pending.new
    (by intro Y hY; simp [Pending.new, mapGet] at hY) X h

/-- Witness for the amended C4 at a concrete input: after
`insert(0, 0, Some(7))` there is a waiter entry for `0`, and hence a pending
entry for `0`. -/
theorem C4_amended_waiter_implies_pending_witness :
    (mapGet (runState [Op.insertOp (0 : Nat) (0 : Nat) (some 7)]).callbacks 0).isSome = true ∧
    (mapGet (runState [Op.insertOp (0 : Nat) (0 : Nat) (some 7)]).pending 0).isSome = true :=
  ⟨rfl, C4_amended_waiter_implies_pending [Op.insertOp 0 0 (some 7)] 0 rfl⟩

end PendingTracker
